import Mathlib

/-!
Verification of the basic enum module (`enum.py`).

The module defines a metaclass `_meta` (type-level `__iter__`, `__getitem__`,
`__contains__`, `__len__`) and a base class `_base` (`members`, `name`),
combined into the public `Enum` base class.  We embed the attribute table of
an enum class and each of these operations, and prove the behavioural
properties stated about them.
-/

set_option autoImplicit false

namespace PyEnum

/-- A dynamic value of the host language as used by the enum module: an
integer or a string.  Cross-constructor equality is `False`, matching the
host language where `1 == "1"` is false. -/
inductive PyVal where
  | int : Int → PyVal
  | str : String → PyVal
deriving DecidableEq

/-- `str(v)`: the textual form of a value, as interpolated by `format`. -/
def pyStr : PyVal → String
  | .int n => toString n
  | .str s => s

/-- One class attribute as `_base._callable` classifies it: either a plain
non-callable value (a member candidate), or a callable — a function, method
or classmethod, for which `callable(getattr(cls, k))` is true. -/
inductive PyAttr where
  | value : PyVal → PyAttr
  | callable : PyAttr
deriving DecidableEq

/-- An enum class as the metaclass sees it: its `__name__` and its own
attribute table `__dict__`, a finite map kept in declaration order. -/
structure EnumClass where
  clsName : String
  attrs : List (String × PyAttr)
deriving DecidableEq

/-- Attribute names are unique, as they are in a real class dict. -/
def wellFormed (cls : EnumClass) : Bool :=
  (cls.attrs.map Prod.fst).Nodup

/-- `k.startswith("_")`: the first character is an underscore. -/
def startsWithUnderscore (s : String) : Bool :=
  match s.data with
  | [] => false
  | c :: _ => decide (c = '_')

/-- The filter of `_base.members` applied to an attribute table: keep the
pairs `(k, v)` where `k` does not start with an underscore and the attribute
is not callable. -/
def membersList (l : List (String × PyAttr)) : List (String × PyVal) :=
  l.filterMap fun kv =>
    match kv with
    | (k, PyAttr.value v) => if startsWithUnderscore k then none else some (k, v)
    | (_, PyAttr.callable) => none

/-- `_base.members`: the dict comprehension over `cls.__dict__.items()`
keeping non-underscore, non-callable attributes.  It is recomputed from the
current attribute table on every call; the result keeps declaration order,
as a dict does. -/
def members (cls : EnumClass) : List (String × PyVal) :=
  membersList cls.attrs

/-- The message of the `AttributeError` raised by `_meta.__getitem__` and by
ordinary attribute access on a missing class attribute.  The format template
interpolates `cls.__name__` and `str(k)`. -/
def attrErrorMsg (clsName : String) (k : PyVal) : String :=
  "type object \x27" ++ clsName ++ "\x27 has no attribute \x27" ++ pyStr k ++ "\x27"

/-- `_meta.__getitem__`: `cls.members()[k]`, with the `KeyError` re-raised as
an `AttributeError`.  The key may be any value; the dict lookup finds the
entry whose key equals `k`, and all member keys are strings. -/
def getitem (cls : EnumClass) (k : PyVal) : Except String PyVal :=
  match (members cls).find? (fun kv => decide (k = PyVal.str kv.1)) with
  | some kv => Except.ok kv.2
  | none => Except.error (attrErrorMsg cls.clsName k)

/-- `_meta.__contains__`: `k in cls.members()`.  Membership on a dict tests
its keys, so this compares `k` against the member NAMES. -/
def enumContains (cls : EnumClass) (k : PyVal) : Bool :=
  (members cls).any fun kv => decide (k = PyVal.str kv.1)

/-- `_meta.__len__`: `len(cls.members())`. -/
def enumLen (cls : EnumClass) : Nat :=
  (members cls).length

/-- The host-language order on values: integers and strings compare among
themselves as usual; a mixed pair is a type error in the host language and
gets an arbitrary fixed answer here (sorting a mutually comparable value
list never consults it). -/
def pyLe : PyVal → PyVal → Bool
  | .int m, .int n => decide (m ≤ n)
  | .str a, .str b => decide (a ≤ b)
  | .int _, .str _ => true
  | .str _, .int _ => false

/-- The strict order corresponding to `pyLe`. -/
def pyLt (v w : PyVal) : Prop :=
  pyLe v w = true ∧ pyLe w v = false

/-- `_meta.__iter__`: `iter(sorted(cls.members().values()))`.  `pyLe` is a
total, transitive and antisymmetric order, so the ascending permutation of
the value list is unique and any sorting algorithm computes exactly what
`sorted` returns. -/
def enumIter (cls : EnumClass) : List PyVal :=
  List.insertionSort (fun a b => pyLe a b = true) ((members cls).map Prod.snd)

/-- `k.replace('_', ' ')`: every underscore becomes a space (the pattern is a
single character, so the replacement is character by character). -/
def replaceUnderscores (s : String) : String :=
  String.mk (s.data.map fun c => if c = '_' then ' ' else c)

/-- The worker of `title()`: the boolean records whether the previous
character was cased (a letter). -/
def titleAux : Bool → List Char → List Char
  | _, [] => []
  | prevCased, c :: cs =>
    if c.isAlpha then
      (if prevCased then c.toLower else c.toUpper) :: titleAux true cs
    else
      c :: titleAux false cs

/-- `s.title()`: uppercase the first letter of every run of letters,
lowercase the rest; other characters pass through and end the run. -/
def pyTitle (s : String) : String :=
  String.mk (titleAux false s.data)

/-- The display string `_base.name` builds from a member declaration name:
`k.replace('_', ' ').title()`. -/
def formatName (k : String) : String :=
  pyTitle (replaceUnderscores k)

/-- The loop of `_base.name`: scan `cls.members().items()` in order and
format the name of the first member whose value equals `value`. -/
def scanName (cls : EnumClass) (value : PyVal) : Option String :=
  match (members cls).find? (fun kv => decide (kv.2 = value)) with
  | some kv => some (formatName kv.1)
  | none => none

/-- `_base.name` with explicit recursion fuel (`none` means the recursion
would not return within `fuel` calls).  The body mirrors the source: scan
the members by value; when no value matches, call `cls[value]` — letting the
`AttributeError` of `__getitem__` escape when `value` is not a member name —
and recurse on the value found. -/
def nameFuel : Nat → EnumClass → PyVal → Option (Except String String)
  | 0, _, _ => none
  | fuel + 1, cls, value =>
    match scanName cls value with
    | some s => some (Except.ok s)
    | none =>
      match getitem cls value with
      | Except.error e => some (Except.error e)
      | Except.ok v => nameFuel fuel cls v

/-- `_base.name`.  Fuel 2 always suffices — after one `cls[value]` step the
argument is a member value and the scan hits — so the default branch below
is dead (proved in the termination theorem). -/
def name (cls : EnumClass) (value : PyVal) : Except String String :=
  match nameFuel 2 cls value with
  | some r => r
  | none => Except.error (attrErrorMsg cls.clsName value)

/-- Attribute assignment on an attribute table: an existing name is
overwritten in place (a dict keeps the original position of an updated key);
a new one is appended. -/
def setAttrList (l : List (String × PyAttr)) (k : String) (a : PyAttr) :
    List (String × PyAttr) :=
  if (l.find? fun kv => decide (kv.1 = k)).isSome then
    l.map fun kv => if kv.1 = k then (k, a) else kv
  else
    l ++ [(k, a)]

/-- `cls.k = a`: class attribute assignment. -/
def setAttr (cls : EnumClass) (k : String) (a : PyAttr) : EnumClass :=
  { cls with attrs := setAttrList cls.attrs k a }

/-- `del cls.k`: remove the attribute named `k` from the class dict. -/
def delAttr (cls : EnumClass) (k : String) : EnumClass :=
  { cls with attrs := cls.attrs.filter fun kv => decide (kv.1 ≠ k) }

/-- Ordinary class attribute access `cls.k` against the own attribute table,
failing with the host `AttributeError` message when the name is absent.
(The base classes of the demo class contribute no attribute relevant here.) -/
def pyGetattr (cls : EnumClass) (k : String) : Except String PyAttr :=
  match cls.attrs.find? (fun kv => decide (kv.1 = k)) with
  | some kv => Except.ok kv.2
  | none => Except.error (attrErrorMsg cls.clsName (PyVal.str k))

/-- The demo class `Color` of the module, as the metaclass sees its dict:
`__module__` and `__doc__` are underscore-prefixed attributes, the members
are the seven colour constants in declaration order, and `name` and
`counterpart` are classmethods — callable through `getattr`. -/
def Color : EnumClass :=
  { clsName := "Color",
    attrs := [
      ("__module__", PyAttr.value (PyVal.str "__main__")),
      ("__doc__", PyAttr.value (PyVal.str "Enum class example")),
      ("BLACK", PyAttr.value (PyVal.int 0)),
      ("WHITE", PyAttr.value (PyVal.int 10)),
      ("DEFAULT", PyAttr.value (PyVal.int (-1))),
      ("RED", PyAttr.value (PyVal.int 1)),
      ("GREEN", PyAttr.value (PyVal.int 2)),
      ("BLUE", PyAttr.value (PyVal.int 3)),
      ("NICE_ONE", PyAttr.value (PyVal.int 4)),
      ("name", PyAttr.callable),
      ("counterpart", PyAttr.callable)] }

/-- A class in which the value of member `A` is the string `"B"`, the
declaration name of another member: it separates the value scan from the
name fallback inside `_base.name`. -/
def NameClash : EnumClass :=
  { clsName := "NameClash",
    attrs := [
      ("A", PyAttr.value (PyVal.str "B")),
      ("B", PyAttr.value (PyVal.str "C"))] }

/-- A class with two members sharing one value, `GRAY` declared first. -/
def Dup : EnumClass :=
  { clsName := "Dup",
    attrs := [
      ("GRAY", PyAttr.value (PyVal.int 7)),
      ("GREY", PyAttr.value (PyVal.int 7))] }

instance instPyLeTotal : IsTotal PyVal fun a b => pyLe a b = true where
  total a b := by
    cases a with
    | int m =>
      cases b with
      | int n => simpa [pyLe] using Int.le_total m n
      | str s => exact Or.inl rfl
    | str s =>
      cases b with
      | int n => exact Or.inr rfl
      | str t => simpa [pyLe] using le_total s t

instance instPyLeTrans : IsTrans PyVal fun a b => pyLe a b = true where
  trans a b c hab hbc := by
    cases a with
    | int m =>
      cases c with
      | int p =>
        cases b with
        | int n =>
          simp only [pyLe, decide_eq_true_eq] at hab hbc ⊢
          omega
        | str s => simp [pyLe] at hbc
      | str s => rfl
    | str s =>
      cases b with
      | int n => simp [pyLe] at hab
      | str t =>
        cases c with
        | int p => simp [pyLe] at hbc
        | str u =>
          simp only [pyLe, decide_eq_true_eq] at hab hbc ⊢
          exact le_trans hab hbc

theorem pyLe_refl (v : PyVal) : pyLe v v = true := by
  cases v <;> simp [pyLe]

theorem mem_membersList {l : List (String × PyAttr)} {k : String} {v : PyVal} :
    (k, v) ∈ membersList l ↔
      (k, PyAttr.value v) ∈ l ∧ startsWithUnderscore k = false := by
  constructor
  · intro h
    obtain ⟨⟨k0, a0⟩, hmem, hf⟩ := List.mem_filterMap.mp h
    cases a0 with
    | value v0 =>
      by_cases hu : startsWithUnderscore k0 = true
      · simp [hu] at hf
      · simp [hu] at hf
        obtain ⟨hk, hv⟩ := hf
        subst hk
        subst hv
        exact ⟨hmem, by simpa using hu⟩
    | callable => simp at hf
  · rintro ⟨hmem, hu⟩
    exact List.mem_filterMap.mpr ⟨(k, PyAttr.value v), hmem, by simp [hu]⟩

theorem membersList_names_sublist (l : List (String × PyAttr)) :
    ((membersList l).map Prod.fst).Sublist (l.map Prod.fst) := by
  induction l with
  | nil => simp [membersList]
  | cons a t ih =>
    obtain ⟨k0, a0⟩ := a
    cases a0 with
    | value v0 =>
      by_cases hu : startsWithUnderscore k0 = true
      · simpa [membersList, List.filterMap_cons, hu] using ih.cons k0
      · simpa [membersList, List.filterMap_cons, hu] using ih.cons₂ k0
    | callable =>
      simpa [membersList, List.filterMap_cons] using ih.cons k0

theorem members_names_nodup {cls : EnumClass} (h : wellFormed cls = true) :
    ((members cls).map Prod.fst).Nodup := by
  have hnd : (cls.attrs.map Prod.fst).Nodup := by
    simpa [wellFormed] using h
  exact hnd.sublist (membersList_names_sublist cls.attrs)

theorem find?_eq_get_of_first {α : Type} (p : α → Bool) (l : List α) (i : Nat)
    (hi : i < l.length) (hp : p (l.get ⟨i, hi⟩) = true)
    (hfirst : ∀ j (hj : j < i), p (l.get ⟨j, Nat.lt_trans hj hi⟩) = false) :
    l.find? p = some (l.get ⟨i, hi⟩) := by
  induction l generalizing i with
  | nil => exact absurd hi (Nat.not_lt_zero i)
  | cons a t ih =>
    cases i with
    | zero => simp_all [List.find?_cons]
    | succ m =>
      have ha : p a = false := hfirst 0 (Nat.succ_pos m)
      have ht := ih m (Nat.lt_of_succ_lt_succ hi) hp
        (fun j hj => hfirst (j + 1) (Nat.succ_lt_succ hj))
      simpa [List.find?_cons, ha] using ht

theorem find?_key_of_nodup {l : List (String × PyVal)}
    (hnd : (l.map Prod.fst).Nodup) {k : String} {v : PyVal} (hmem : (k, v) ∈ l) :
    l.find? (fun kv => decide (k = kv.1)) = some (k, v) := by
  induction l with
  | nil => cases hmem
  | cons a t ih =>
    rw [List.map_cons] at hnd
    obtain ⟨hnotmem, hndt⟩ := List.nodup_cons.mp hnd
    rcases List.mem_cons.mp hmem with he | hmt
    · subst he
      simp [List.find?_cons]
    · have hk : a.1 ≠ k := by
        intro he
        exact hnotmem (he ▸ List.mem_map.mpr ⟨(k, v), hmt, rfl⟩)
      have hp : decide (k = a.1) = false := by
        simp only [decide_eq_false_iff_not]
        exact fun he => hk he.symm
      simpa [List.find?_cons, hp] using ih hndt hmt

theorem scanName_isSome_of_mem {cls : EnumClass} {v : PyVal}
    (h : v ∈ (members cls).map Prod.snd) : ∃ s, scanName cls v = some s := by
  obtain ⟨kv, hkv, hv⟩ := List.mem_map.mp h
  have hs : ((members cls).find? fun kw => decide (kw.2 = v)).isSome :=
    List.find?_isSome.mpr ⟨kv, hkv, by simp [hv]⟩
  obtain ⟨kw, hkw⟩ := Option.isSome_iff_exists.mp hs
  exact ⟨formatName kw.1, by simp [scanName, hkw]⟩

theorem getitem_ok_mem {cls : EnumClass} {k w : PyVal}
    (h : getitem cls k = Except.ok w) : w ∈ (members cls).map Prod.snd := by
  unfold getitem at h
  cases hf : (members cls).find? fun kv => decide (k = PyVal.str kv.1) with
  | none => rw [hf] at h; cases h
  | some kv =>
    rw [hf] at h
    have hw : kv.2 = w := Except.ok.inj h
    exact List.mem_map.mpr ⟨kv, List.mem_of_find?_eq_some hf, hw⟩

theorem nameFuel_of_scan (fuel : Nat) {cls : EnumClass} {v : PyVal} {s : String}
    (h : scanName cls v = some s) :
    nameFuel (fuel + 1) cls v = some (Except.ok s) := by
  simp [nameFuel, h]

theorem nameFuel_of_getitem_error (fuel : Nat) {cls : EnumClass} {v : PyVal}
    {e : String} (h1 : scanName cls v = none) (h2 : getitem cls v = Except.error e) :
    nameFuel (fuel + 1) cls v = some (Except.error e) := by
  simp [nameFuel, h1, h2]

theorem nameFuel_of_getitem_ok (fuel : Nat) {cls : EnumClass} {v w : PyVal}
    (h1 : scanName cls v = none) (h2 : getitem cls v = Except.ok w) :
    nameFuel (fuel + 1) cls v = nameFuel fuel cls w := by
  simp [nameFuel, h1, h2]

theorem name_of_scan {cls : EnumClass} {v : PyVal} {s : String}
    (h : scanName cls v = some s) : name cls v = Except.ok s := by
  simp [name, nameFuel_of_scan 1 h]

theorem name_of_getitem_error {cls : EnumClass} {v : PyVal} {e : String}
    (h1 : scanName cls v = none) (h2 : getitem cls v = Except.error e) :
    name cls v = Except.error e := by
  simp [name, nameFuel_of_getitem_error 1 h1 h2]

theorem name_of_getitem_ok {cls : EnumClass} {v w : PyVal}
    (h1 : scanName cls v = none) (h2 : getitem cls v = Except.ok w) :
    name cls v = name cls w := by
  obtain ⟨s, hs⟩ := scanName_isSome_of_mem (getitem_ok_mem h2)
  rw [name_of_scan hs]
  simp [name, nameFuel_of_getitem_ok 1 h1 h2, nameFuel_of_scan 0 hs]

theorem scanName_eq_none {cls : EnumClass} {v : PyVal}
    (h : ∀ kv ∈ members cls, kv.2 ≠ v) : scanName cls v = none := by
  have hf : (members cls).find? (fun kv => decide (kv.2 = v)) = none :=
    List.find?_eq_none.mpr (fun kv hkv => by simpa using h kv hkv)
  simp [scanName, hf]

theorem getitem_eq_error {cls : EnumClass} {v : PyVal}
    (h : ∀ kv ∈ members cls, v ≠ PyVal.str kv.1) :
    getitem cls v = Except.error (attrErrorMsg cls.clsName v) := by
  have hf : (members cls).find? (fun kv => decide (v = PyVal.str kv.1)) = none :=
    List.find?_eq_none.mpr (fun kv hkv => by simpa using h kv hkv)
  simp [getitem, hf]

theorem getitem_ok_of_mem {cls : EnumClass} {k : String} {v : PyVal}
    (hwf : wellFormed cls = true) (hmem : (k, v) ∈ members cls) :
    getitem cls (PyVal.str k) = Except.ok v := by
  have hf := find?_key_of_nodup (members_names_nodup hwf) hmem
  simp [getitem, hf]

theorem not_mem_members_delAttr (cls : EnumClass) (k : String) (v : PyVal) :
    (k, v) ∉ members (delAttr cls k) := by
  intro h
  have hmem := (mem_membersList.mp h).1
  have hp := List.of_mem_filter hmem
  simp at hp

theorem mem_members_setAttr (cls : EnumClass) (k : String) (v : PyVal)
    (hu : startsWithUnderscore k = false) :
    (k, v) ∈ members (setAttr cls k (PyAttr.value v)) := by
  apply mem_membersList.mpr
  refine ⟨?_, hu⟩
  show (k, PyAttr.value v) ∈ setAttrList cls.attrs k (PyAttr.value v)
  unfold setAttrList
  split
  · next hf =>
    obtain ⟨kv, hkv⟩ := Option.isSome_iff_exists.mp hf
    have hk : kv.1 = k := by simpa using List.find?_some hkv
    exact List.mem_map.mpr ⟨kv, List.mem_of_find?_eq_some hkv, by simp [hk]⟩
  · next =>
    exact List.mem_append_right _ (List.mem_singleton.mpr rfl)

/-- Claim C1 (refuted by the code, which contradicts its own demo comments):
the spec demands that the containment test hold exactly of member VALUES, but
`_meta.__contains__` evaluates `k in cls.members()`, a dict membership test
on the member NAMES.  On the demo class, the value `2` of member `GREEN` is
not contained, while the string `"GREEN"` is. -/
theorem contains_tests_names_not_values :
    PyVal.int 2 ∈ (members Color).map Prod.snd ∧
    enumContains Color (PyVal.int 2) = false ∧
    enumContains Color (PyVal.str "GREEN") = true :=
  ⟨by decide, by decide, by decide⟩

/-- Claim C2, counterexample: in `NameClash` the argument `"B"` is both a
member name and the value of member `A`.  The code resolves it by the value
scan to `"A"`; the claimed attribute-name priority would resolve it through
the value of attribute `B` (the string `"C"`) to `"B"`. -/
theorem name_attr_priority_counterexample :
    pyGetattr NameClash "B" = Except.ok (PyAttr.value (PyVal.str "C")) ∧
    name NameClash (PyVal.str "B") = Except.ok "A" ∧
    name NameClash (PyVal.str "C") = Except.ok "B" ∧
    name NameClash (PyVal.str "B") ≠ name NameClash (PyVal.str "C") := by
  refine ⟨by rfl, by rfl, by rfl, ?_⟩
  intro h
  rw [show name NameClash (PyVal.str "B") = Except.ok "A" from rfl,
      show name NameClash (PyVal.str "C") = Except.ok "B" from rfl] at h
  exact absurd (Except.ok.inj h) (by decide)

/-- Claim C2, amended: `_base.name` scans the members by VALUE first and
returns the formatted name of the first match; only when no member value
equals the argument does it interpret the argument as a member name through
`cls[value]`, recursing on the value found there or propagating the
`AttributeError`.  The value scan, not the name interpretation, takes
priority. -/
theorem name_scans_values_before_name_fallback (cls : EnumClass) (v : PyVal) :
    (∀ s, scanName cls v = some s → name cls v = Except.ok s) ∧
    (scanName cls v = none →
      ∀ e, getitem cls v = Except.error e → name cls v = Except.error e) ∧
    (scanName cls v = none →
      ∀ w, getitem cls v = Except.ok w → name cls v = name cls w) :=
  ⟨fun _ h => name_of_scan h,
   fun h1 _ h2 => name_of_getitem_error h1 h2,
   fun h1 _ h2 => name_of_getitem_ok h1 h2⟩

/-- Witness for the amended claim C2 at concrete inputs: `name(1)` resolves
through the value scan, `name("GREEN")` through the member-name fallback. -/
theorem name_scans_values_before_name_fallback_witness :
    name Color (PyVal.int 1) = Except.ok "Red" ∧
    name Color (PyVal.str "GREEN") = Except.ok "Green" :=
  ⟨(name_scans_values_before_name_fallback Color (PyVal.int 1)).1 "Red" (by rfl),
   ((name_scans_values_before_name_fallback Color (PyVal.str "GREEN")).2.2
      (by rfl) (PyVal.int 2) (by rfl)).trans
     ((name_scans_values_before_name_fallback Color (PyVal.int 2)).1 "Green" (by rfl))⟩

/-- Claim C3, counterexample: the round trip fails in `NameClash` for member
`B` with value `"C"`, because the string `"B"` is also the value of the
member `A` declared before it, so the value scan intercepts it. -/
theorem roundtrip_counterexample :
    ("B", PyVal.str "C") ∈ members NameClash ∧
    name NameClash (PyVal.str "C") = Except.ok "B" ∧
    name NameClash (PyVal.str "B") = Except.ok "A" ∧
    name NameClash (PyVal.str "C") ≠ name NameClash (PyVal.str "B") := by
  refine ⟨by decide, by rfl, by rfl, ?_⟩
  intro h
  rw [show name NameClash (PyVal.str "C") = Except.ok "B" from rfl,
      show name NameClash (PyVal.str "B") = Except.ok "A" from rfl] at h
  exact absurd (Except.ok.inj h) (by decide)

/-- Claim C3, amended: the round trip holds for every member whose
declaration name, read as a value, is not itself the value of some member:
for a member with name `K` and value `V`, resolving `V` and resolving the
string `K` return the same display string. -/
theorem roundtrip_without_value_name_clash (cls : EnumClass) (K : String)
    (V : PyVal) (hwf : wellFormed cls = true) (hmem : (K, V) ∈ members cls)
    (hclash : ∀ kv ∈ members cls, kv.2 ≠ PyVal.str K) :
    name cls V = name cls (PyVal.str K) := by
  have hscan : scanName cls (PyVal.str K) = none := scanName_eq_none hclash
  have hget : getitem cls (PyVal.str K) = Except.ok V := getitem_ok_of_mem hwf hmem
  exact (name_of_getitem_ok hscan hget).symm

/-- Witness for the amended claim C3: on the demo class `RED = 1`, resolving
the value and resolving the name agree. -/
theorem roundtrip_without_value_name_clash_witness :
    name Color (PyVal.int 1) = name Color (PyVal.str "RED") :=
  roundtrip_without_value_name_clash Color "RED" (PyVal.int 1)
    (by decide) (by decide) (by decide)

/-- Claim C4: iteration yields exactly the current member values (a
permutation of them) in ascending order — a strictly smaller member value
is yielded at a strictly earlier position — and on the demo class the
yielded sequence is -1, 0, 1, 2, 3, 4, 10. -/
theorem iteration_yields_values_sorted (cls : EnumClass) (v1 v2 : PyVal)
    (h1 : v1 ∈ (members cls).map Prod.snd) (h2 : v2 ∈ (members cls).map Prod.snd)
    (hlt : pyLt v1 v2) :
    (enumIter cls).Perm ((members cls).map Prod.snd) ∧
    (∀ i j : Fin (enumIter cls).length,
      (enumIter cls).get i = v1 → (enumIter cls).get j = v2 → i < j) ∧
    enumIter Color = [PyVal.int (-1), PyVal.int 0, PyVal.int 1, PyVal.int 2,
      PyVal.int 3, PyVal.int 4, PyVal.int 10] := by
  refine ⟨List.perm_insertionSort _ _, ?_, by decide⟩
  intro i j hi hj
  have hsorted : (enumIter cls).Pairwise fun a b => pyLe a b = true :=
    List.sorted_insertionSort _ _
  by_contra hij
  push_neg at hij
  rcases lt_or_eq_of_le hij with hji | hji
  · have hle := List.pairwise_iff_get.mp hsorted j i hji
    rw [hi, hj] at hle
    simp [hlt.2] at hle
  · rw [hji] at hj
    have hv : v1 = v2 := hi.symm.trans hj
    have h2 := hlt.2
    rw [hv, pyLe_refl] at h2
    exact Bool.noConfusion h2

/-- Witness for claim C4 on the demo class with the member values 0 and 1. -/
theorem iteration_yields_values_sorted_witness :
    (enumIter Color).Perm ((members Color).map Prod.snd) ∧
    (∀ i j : Fin (enumIter Color).length,
      (enumIter Color).get i = PyVal.int 0 → (enumIter Color).get j = PyVal.int 1 →
        i < j) ∧
    enumIter Color = [PyVal.int (-1), PyVal.int 0, PyVal.int 1, PyVal.int 2,
      PyVal.int 3, PyVal.int 4, PyVal.int 10] :=
  iteration_yields_values_sorted Color (PyVal.int 0) (PyVal.int 1)
    (by decide) (by decide) ⟨by decide, by decide⟩

/-- Claim C5: indexed lookup returns the value bound to a current member
name, and otherwise fails with the attribute-style error message; the
message is the same whether the key names no attribute at all or an
attribute that is not a member, and it is the very message ordinary
attribute access produces for a missing name. -/
theorem getitem_member_or_attr_error (cls : EnumClass) (k : String) :
    (∀ V : PyVal, wellFormed cls = true → (k, V) ∈ members cls →
      getitem cls (PyVal.str k) = Except.ok V) ∧
    (k ∉ (members cls).map Prod.fst →
      getitem cls (PyVal.str k) =
        Except.error (attrErrorMsg cls.clsName (PyVal.str k))) ∧
    (k ∉ cls.attrs.map Prod.fst →
      pyGetattr cls k = Except.error (attrErrorMsg cls.clsName (PyVal.str k))) := by
  refine ⟨fun V hwf hmem => getitem_ok_of_mem hwf hmem, ?_, ?_⟩
  · intro hk
    apply getitem_eq_error
    intro kv hkv he
    exact hk (List.mem_map.mpr ⟨kv, hkv, (PyVal.str.inj he).symm⟩)
  · intro hk
    have hf : cls.attrs.find? (fun kv => decide (kv.1 = k)) = none :=
      List.find?_eq_none.mpr (fun kv hkv => by
        simp only [decide_eq_true_eq]
        intro he
        exact hk (List.mem_map.mpr ⟨kv, hkv, he⟩))
    simp [pyGetattr, hf]

/-- Witness for claim C5: member lookup of `RED` succeeds; `name` exists on
the class but is not a member, `BROWN` is no attribute at all, and both fail
with the message ordinary attribute access gives. -/
theorem getitem_member_or_attr_error_witness :
    getitem Color (PyVal.str "RED") = Except.ok (PyVal.int 1) ∧
    getitem Color (PyVal.str "name") =
      Except.error (attrErrorMsg Color.clsName (PyVal.str "name")) ∧
    getitem Color (PyVal.str "BROWN") =
      Except.error (attrErrorMsg Color.clsName (PyVal.str "BROWN")) ∧
    pyGetattr Color "BROWN" =
      Except.error (attrErrorMsg Color.clsName (PyVal.str "BROWN")) :=
  ⟨(getitem_member_or_attr_error Color "RED").1 (PyVal.int 1) (by decide) (by decide),
   (getitem_member_or_attr_error Color "name").2.1 (by decide),
   (getitem_member_or_attr_error Color "BROWN").2.1 (by decide),
   (getitem_member_or_attr_error Color "BROWN").2.2 (by decide)⟩

/-- Claim C6: `members` holds exactly the directly declared attributes whose
names lack the underscore prefix and whose values are not callable, and it
is recomputed from the current attribute table, so deleting an attribute
removes its member and adding a non-underscore value adds one. -/
theorem members_filter_and_mutation (cls : EnumClass) (k : String) (v : PyVal) :
    ((k, v) ∈ members cls ↔
      (k, PyAttr.value v) ∈ cls.attrs ∧ startsWithUnderscore k = false) ∧
    (k, v) ∉ members (delAttr cls k) ∧
    (startsWithUnderscore k = false →
      (k, v) ∈ members (setAttr cls k (PyAttr.value v))) :=
  ⟨mem_membersList, not_mem_members_delAttr cls k v, mem_members_setAttr cls k v⟩

/-- Witness for claim C6: after the demo assignment `Color.YELLOW = 5` the
new pair is a member. -/
theorem members_filter_and_mutation_witness :
    ("YELLOW", PyVal.int 5) ∈
      members (setAttr Color "YELLOW" (PyAttr.value (PyVal.int 5))) :=
  (members_filter_and_mutation Color "YELLOW" (PyVal.int 5)).2.2 (by decide)

/-- Claim C7: when the argument matches no member value and is no member
name either, name resolution fails with the attribute-style error whose
message carries the offending value and the type name; it never returns a
sentinel. -/
theorem name_unmatched_fails_with_value_and_type (cls : EnumClass) (v : PyVal)
    (hval : ∀ kv ∈ members cls, kv.2 ≠ v)
    (hkey : ∀ kv ∈ members cls, v ≠ PyVal.str kv.1) :
    name cls v = Except.error
      ("type object \x27" ++ cls.clsName ++ "\x27 has no attribute \x27"
        ++ pyStr v ++ "\x27") :=
  name_of_getitem_error (scanName_eq_none hval) (getitem_eq_error hkey)

/-- Witness for claim C7: `name(9999)` on the demo class fails and its
message names the value 9999 and the type Color. -/
theorem name_unmatched_fails_with_value_and_type_witness :
    name Color (PyVal.int 9999) = Except.error
      ("type object \x27" ++ Color.clsName ++ "\x27 has no attribute \x27"
        ++ pyStr (PyVal.int 9999) ++ "\x27") :=
  name_unmatched_fails_with_value_and_type Color (PyVal.int 9999)
    (by decide) (by decide)

/-- Claim C8: the length is the member count of the moment — 7 on the demo
class, 8 after adding `YELLOW = 5`, and 7 again after deleting
`NICE_ONE`. -/
theorem len_equals_member_count :
    (∀ cls : EnumClass, enumLen cls = (members cls).length) ∧
    enumLen Color = 7 ∧
    enumLen (setAttr Color "YELLOW" (PyAttr.value (PyVal.int 5))) = 8 ∧
    enumLen (delAttr (setAttr Color "YELLOW" (PyAttr.value (PyVal.int 5)))
      "NICE_ONE") = 7 :=
  ⟨fun _ => rfl, by decide, by decide, by decide⟩

/-- Claim C9: duplicate member values are legal, and reverse lookup resolves
a value to the member holding it that comes first in declaration order. -/
theorem duplicate_values_resolve_to_first_declared (cls : EnumClass)
    (K : String) (V : PyVal) (i : Nat) (hi : i < (members cls).length)
    (hKV : (members cls).get ⟨i, hi⟩ = (K, V))
    (hfirst : ∀ j (hj : j < i), ((members cls).get ⟨j, Nat.lt_trans hj hi⟩).2 ≠ V) :
    name cls V = Except.ok (formatName K) := by
  have hp : (fun kv => decide (kv.2 = V)) ((members cls).get ⟨i, hi⟩) = true := by
    rw [hKV]
    simp
  have hf : ∀ j (hj : j < i),
      (fun kv => decide (kv.2 = V)) ((members cls).get ⟨j, Nat.lt_trans hj hi⟩) = false := by
    intro j hj
    simpa using hfirst j hj
  have hfind := find?_eq_get_of_first (fun kv => decide (kv.2 = V))
    (members cls) i hi hp hf
  rw [hKV] at hfind
  exact name_of_scan (by simp [scanName, hfind])

/-- Witness for claim C9: in `Dup` the value 7 belongs to both members and
resolves to `GRAY`, the one declared first. -/
theorem duplicate_values_resolve_to_first_declared_witness :
    (members Dup).map Prod.snd = [PyVal.int 7, PyVal.int 7] ∧
    name Dup (PyVal.int 7) = Except.ok "Gray" :=
  ⟨by decide,
   duplicate_values_resolve_to_first_declared Dup "GRAY" (PyVal.int 7) 0
     (by decide) (by decide) (fun j hj => absurd hj (Nat.not_lt_zero j))⟩

/-- Claim C10: the recursion of `_base.name` always terminates — fuel 2
suffices and extra fuel never changes the result, because the recursive call
receives a member value, which the scan resolves at once. -/
theorem name_resolution_terminates (cls : EnumClass) (v : PyVal) :
    (nameFuel 2 cls v).isSome = true ∧
    ∀ n : Nat, nameFuel (n + 2) cls v = nameFuel 2 cls v := by
  cases hscan : scanName cls v with
  | some s =>
    refine ⟨by rw [nameFuel_of_scan 1 hscan]; rfl, fun n => ?_⟩
    rw [nameFuel_of_scan (n + 1) hscan, nameFuel_of_scan 1 hscan]
  | none =>
    cases hget : getitem cls v with
    | error e =>
      refine ⟨by rw [nameFuel_of_getitem_error 1 hscan hget]; rfl, fun n => ?_⟩
      rw [nameFuel_of_getitem_error (n + 1) hscan hget,
          nameFuel_of_getitem_error 1 hscan hget]
    | ok w =>
      obtain ⟨s, hs⟩ := scanName_isSome_of_mem (getitem_ok_mem hget)
      refine ⟨?_, fun n => ?_⟩
      · rw [nameFuel_of_getitem_ok 1 hscan hget, nameFuel_of_scan 0 hs]
        rfl
      · rw [nameFuel_of_getitem_ok (n + 1) hscan hget,
            nameFuel_of_getitem_ok 1 hscan hget,
            nameFuel_of_scan n hs, nameFuel_of_scan 0 hs]

end PyEnum
